import Mathlib

/-!
Verification of the audio timeline engine of the swim-metronome repository
(src/audio_generator.py, with its call sites in src/generate.py).

Modelling conventions, used throughout:

* Python floats are modelled as exact rationals (`ℚ`).  Every quantity the
  claims depend on is separated from the nearest decision boundary by a
  margin that is astronomically larger than double-precision rounding
  error, so the exact-rational model and the floating-point program agree
  on all of them.
* Python `int(x)` truncates toward zero: `pyIntQ` / `pyIntR` below.
* `AudioSegment` data (the pydub library, through which all audio in
  audio_generator.py flows) is a mono sequence of signed 16-bit samples;
  we model it as `List ℤ` whose elements are kept in
  `[-32768, 32767]` by the saturating primitives of the `audioop` C module
  (`audioop.mul`, `audioop.add`), which clamp instead of wrapping.
* pydub operations used by the repository are modelled frame-accurately at
  their fixed rates: `Sine(freq)` synthesizes at pydub's default
  44100 frames/second (the `AudioGenerator.sample_rate` attribute is never
  passed to it), and `AudioSegment.silent` allocates at pydub's default
  11025 frames/second.
-/

/-- Python `int(x)` for a rational: truncation toward zero. -/
def pyIntQ (x : ℚ) : ℤ := if x < 0 then -⌊-x⌋ else ⌊x⌋

/-- Python `int(x)` for a real: truncation toward zero. -/
noncomputable def pyIntR (x : ℝ) : ℤ := if x < 0 then -⌊-x⌋ else ⌊x⌋

/-- Python 3 `round(x)` (round half to even), as used by pydub
`AudioSegment.__len__`.  For the lengths produced in this file the
argument is never exactly halfway, so the tie-breaking rule is inert. -/
def pyRound (x : ℚ) : ℤ :=
  if x - ⌊x⌋ < 1/2 then ⌊x⌋
  else if 1/2 < x - ⌊x⌋ then ⌊x⌋ + 1
  else if ⌊x⌋ % 2 = 0 then ⌊x⌋ else ⌊x⌋ + 1

/-- `fbound` from CPython's `audioop` module: clamp to the 16-bit range
and round toward minus infinity.  `audioop.mul` applies it to
`sample * factor`. -/
noncomputable def fbound (x : ℝ) : ℤ :=
  if 32767 < x then 32767 else if x < -32767 then -32768 else ⌊x⌋

/-- `audioop.mul(data, 2, factor)` on one 16-bit sample. -/
noncomputable def mulSample (factor : ℝ) (s : ℤ) : ℤ := fbound ((s : ℝ) * factor)

/-- `audioop.add(a, b, 2)` on one pair of 16-bit samples: saturating
addition (this is `fbound` on an integer, where the floor is inert). -/
def satAdd (a b : ℤ) : ℤ :=
  if 32767 < a + b then 32767 else if a + b < -32767 then -32768 else a + b

/-- pydub `db_to_float(db)` = `10 ** (db / 20)` (amplitude convention). -/
noncomputable def dbToFloat (db : ℚ) : ℝ := (10 : ℝ) ^ ((db : ℝ) / 20)

/-! ## Beat scheduler (`AudioGenerator.generate_metronome`, the loop of
lines 77-98 of src/audio_generator.py)

```
beat_interval_ms = (60 / bpm) * 1000
current_time_ms = 0
beat_count = 0
while current_time_ms < duration_seconds * 1000:
    is_accent = (beat_count % beats_per_measure == 0) if accent_first else False
    metronome = metronome.overlay(click, position=int(current_time_ms))
    current_time_ms += beat_interval_ms
    beat_count += 1
```

After `i` loop iterations `current_time_ms` is exactly
`i * (60000 / bpm)`, so beat `i` exists iff `i * (60000 / bpm) <
duration_seconds * 1000` and is overlaid at millisecond position
`int(i * (60000 / bpm))`.  For `bpm ≤ 0` the loop does not terminate
(or divides by zero); `numBeats` returns the junk value 0 there and every
theorem below that quantifies over `bpm` assumes `0 < bpm`. -/

/-- One scheduled beat: the millisecond offset passed to `overlay` and
the accent flag choosing between the two cached clicks. -/
structure BeatEvent where
  offset : ℤ
  accent : Bool
deriving DecidableEq, Repr

/-- Number of iterations of the beat loop: the least `i` with
`i * q ≥ D`, for interval `q = 60000 / bpm` and `D = duration_seconds *
1000` (0 when the loop would not terminate, i.e. `q ≤ 0`). -/
def numBeats (q D : ℚ) : ℕ := if 0 < q then (max 0 ⌈D / q⌉).toNat else 0

/-- The beat events scheduled by `generate_metronome`
(`60 / bpm * 1000` is the source's `beat_interval_ms`). -/
def metronomeBeats (bpm : ℚ) (beats_per_measure : ℕ) (duration_seconds : ℚ)
    (accent_first : Bool) : List BeatEvent :=
  (List.range (numBeats (60 / bpm * 1000) (duration_seconds * 1000))).map fun (i : ℕ) =>
    { offset := pyIntQ ((i : ℚ) * (60 / bpm * 1000))
      accent := accent_first && decide (i % beats_per_measure = 0) }

/-! ## Announcement scheduler (`AudioGenerator.calculate_announcement_times`,
lines 102-134 of src/audio_generator.py)

```
time_per_meter = time_per_100m / 100
announcements = []
distance = interval
while True:
    time = distance * time_per_meter
    if time >= total_duration:
        break
    announcements.append({'time': time, 'distance': distance,
                          'laps': distance / pool_length,
                          'hundreds': distance / 100})
    distance += interval
return announcements
```

The loop is translated with an explicit iteration budget (`annFuel`),
which is proved sufficient whenever `0 < interval * time_per_meter`,
exactly the situations in which the Python loop terminates. -/

/-- One entry of the list returned by `calculate_announcement_times`. -/
structure Announcement where
  time : ℚ
  distance : ℚ
  laps : ℚ
  hundreds : ℚ
deriving DecidableEq, Repr

/-- The body of the `while True` loop, with an iteration budget. -/
def annLoop (tpm pool interval total : ℚ) : ℚ → ℕ → List Announcement
  | _, 0 => []
  | d, Nat.succ fuel =>
    if d * tpm < total then
      { time := d * tpm, distance := d, laps := d / pool, hundreds := d / 100 } ::
        annLoop tpm pool interval total (d + interval) fuel
    else []

/-- Iterations remaining when the loop's current distance is `d`. -/
def annSteps (tpm interval total d : ℚ) : ℕ :=
  (max 0 ⌈(total - d * tpm) / (interval * tpm)⌉).toNat

/-- A budget large enough for the whole loop (proved below). -/
def annFuel (tpm interval total : ℚ) : ℕ :=
  (max 0 ⌈total / (interval * tpm)⌉).toNat + 1

/-- `AudioGenerator.calculate_announcement_times`. -/
def calculate_announcement_times (pool_length time_per_100m interval total_duration : ℚ) :
    List Announcement :=
  annLoop (time_per_100m / 100) pool_length interval total_duration interval
    (annFuel (time_per_100m / 100) interval total_duration)

/-! ### Evaluation lemmas for the computable layer
(`Rat` arithmetic is irreducible to the kernel, so concrete instances are
settled through `norm_num` with the following bridges.) -/

/-- Evaluate `pyIntQ` on a nonnegative argument. -/
theorem pyIntQ_eq (x : ℚ) (n : ℤ) (h0 : 0 ≤ x) (h1 : (n : ℚ) ≤ x) (h2 : x < n + 1) :
    pyIntQ x = n := by
  rw [pyIntQ, if_neg (not_lt.2 h0)]
  exact Int.floor_eq_iff.2 ⟨h1, h2⟩

/-- Evaluate `pyIntQ` on a negative argument (truncation toward zero). -/
theorem pyIntQ_eq_neg (x : ℚ) (n : ℤ) (h0 : x < 0) (h1 : (n : ℚ) - 1 < x) (h2 : x ≤ n) :
    pyIntQ x = n := by
  rw [pyIntQ, if_pos h0, neg_eq_iff_eq_neg]
  refine Int.floor_eq_iff.2 ⟨by push_cast; linarith, by push_cast; linarith⟩

/-- Evaluate `numBeats` when the interval is positive and the beat count
is pinned by the two bounds. -/
theorem numBeats_eq (q D : ℚ) (n : ℕ) (hq : 0 < q)
    (h1 : ((n : ℚ) - 1) * q < D) (h2 : D ≤ n * q) : numBeats q D = n := by
  have hc : ⌈D / q⌉ = (n : ℤ) := by
    rw [Int.ceil_eq_iff]
    constructor
    · rw [lt_div_iff₀ hq]; push_cast; linarith
    · rw [div_le_iff₀ hq]; push_cast; linarith
  rw [numBeats, if_pos hq, hc]
  simp

/-- `numBeats` is zero for a nonpositive duration. -/
theorem numBeats_eq_zero (q D : ℚ) (hq : 0 < q) (hD : D ≤ 0) : numBeats q D = 0 := by
  rw [numBeats, if_pos hq]
  have : ⌈D / q⌉ ≤ 0 := by
    rw [Int.ceil_le]
    push_cast
    exact div_nonpos_iff.2 (Or.inr ⟨hD, hq.le⟩)
  omega

/-- Membership characterization of the beat loop: beat `i` is scheduled
iff its exact accumulated start time is below the total duration. -/
theorem lt_numBeats_iff (q D : ℚ) (hq : 0 < q) (i : ℕ) :
    i < numBeats q D ↔ (i : ℚ) * q < D := by
  rw [numBeats, if_pos hq]
  constructor
  · intro h
    have hi : (i : ℤ) < ⌈D / q⌉ := by omega
    have := Int.lt_ceil.1 hi
    rw [lt_div_iff₀ hq] at this
    exact_mod_cast this
  · intro h
    have : (i : ℚ) < D / q := by rw [lt_div_iff₀ hq]; exact h
    have hi : (i : ℤ) < ⌈D / q⌉ := Int.lt_ceil.2 (by exact_mod_cast this)
    omega

/-! ### Characterization of the announcement loop -/

/-- The dictionary appended by one iteration of the loop at distance `d`. -/
def annEntry (tpm pool : ℚ) (d : ℚ) : Announcement :=
  { time := d * tpm, distance := d, laps := d / pool, hundreds := d / 100 }

theorem annSteps_of_stop (tpm interval total d : ℚ) (hq : 0 < interval * tpm)
    (h : ¬ d * tpm < total) : annSteps tpm interval total d = 0 := by
  rw [annSteps]
  have : ⌈(total - d * tpm) / (interval * tpm)⌉ ≤ (0 : ℤ) := by
    rw [Int.ceil_le]
    push_cast
    exact div_nonpos_iff.2 (Or.inr ⟨by linarith [not_lt.1 h], hq.le⟩)
  omega

theorem annSteps_of_step (tpm interval total d : ℚ) (hq : 0 < interval * tpm)
    (h : d * tpm < total) :
    annSteps tpm interval total d = annSteps tpm interval total (d + interval) + 1 := by
  have key : (total - (d + interval) * tpm) / (interval * tpm)
      = (total - d * tpm) / (interval * tpm) - 1 := by
    field_simp
    ring
  have hpos : 0 < (total - d * tpm) / (interval * tpm) := div_pos (by linarith) hq
  have hc : 1 ≤ ⌈(total - d * tpm) / (interval * tpm)⌉ := by
    have := Int.ceil_pos.2 hpos
    omega
  rw [annSteps, annSteps, key, Int.ceil_sub_one]
  omega

/-- With enough fuel, the loop from distance `d` produces exactly
`annSteps` entries, at distances `d, d + interval, d + 2 interval, ...`. -/
theorem annLoop_eq (tpm pool interval total : ℚ) (hq : 0 < interval * tpm) :
    ∀ (fuel : ℕ) (d : ℚ), annSteps tpm interval total d ≤ fuel →
      annLoop tpm pool interval total d fuel =
        (List.range (annSteps tpm interval total d)).map
          (fun (j : ℕ) => annEntry tpm pool (d + j * interval)) := by
  intro fuel
  induction fuel with
  | zero =>
    intro d h
    rw [Nat.le_zero.1 h]
    rfl
  | succ fuel ih =>
    intro d h
    by_cases hc : d * tpm < total
    · have hs := annSteps_of_step tpm interval total d hq hc
      rw [annLoop, if_pos hc, ih (d + interval) (by omega), hs, List.range_succ_eq_map,
        List.map_cons, List.map_map]
      congr 1
      · rw [annEntry]
        push_cast
        norm_num
      · apply List.map_congr_left
        intro j _
        rw [Function.comp_apply, annEntry, annEntry]
        have : d + interval + (j : ℚ) * interval = d + (j + 1 : ℕ) * interval := by
          push_cast
          ring
        rw [this]
    · rw [annLoop, if_neg hc, annSteps_of_stop tpm interval total d hq hc]
      rfl

/-- The fuel budget suffices for the whole loop. -/
theorem annSteps_le_annFuel (tpm interval total : ℚ) :
    annSteps tpm interval total interval ≤ annFuel tpm interval total := by
  rw [annSteps, annFuel]
  by_cases hq : interval * tpm = 0
  · rw [hq, sub_zero]
    omega
  · have key : (total - interval * tpm) / (interval * tpm) = total / (interval * tpm) - 1 := by
      field_simp
    rw [key, Int.ceil_sub_one]
    omega

/-- `calculate_announcement_times`, in closed form: one announcement per
multiple of `interval`, starting at `interval`, while the corresponding
time stays below `total_duration`. -/
theorem calculate_announcement_times_eq (pool t100 interval total : ℚ)
    (hq : 0 < interval * (t100 / 100)) :
    calculate_announcement_times pool t100 interval total =
      (List.range (annSteps (t100 / 100) interval total interval)).map
        (fun (j : ℕ) => annEntry (t100 / 100) pool ((j + 1 : ℕ) * interval)) := by
  rw [calculate_announcement_times,
    annLoop_eq (t100 / 100) pool interval total hq _ interval
      (annSteps_le_annFuel (t100 / 100) interval total)]
  apply List.map_congr_left
  intro j _
  have : interval + (j : ℚ) * interval = ((j + 1 : ℕ) : ℚ) * interval := by
    push_cast
    ring
  rw [this]

/-- The loop stops exactly at the first multiple of `interval` whose time
reaches `total`: the k-th announcement (1-based) exists iff its time
`k * interval * tpm` is strictly below `total`. -/
theorem le_annSteps_iff (tpm interval total : ℚ) (hq : 0 < interval * tpm)
    (k : ℕ) (hk : 1 ≤ k) :
    k ≤ annSteps tpm interval total interval ↔ (k : ℚ) * interval * tpm < total := by
  constructor
  · intro h
    have hc : (k : ℤ) - 1 < ⌈(total - interval * tpm) / (interval * tpm)⌉ := by
      rw [annSteps] at h
      omega
    have hlt := Int.lt_ceil.1 hc
    rw [lt_div_iff₀ hq] at hlt
    push_cast at hlt
    nlinarith [hlt]
  · intro h
    have hlt : (((k : ℤ) - 1 : ℤ) : ℚ) < (total - interval * tpm) / (interval * tpm) := by
      rw [lt_div_iff₀ hq]
      push_cast
      nlinarith [h]
    have hc := Int.lt_ceil.2 hlt
    rw [annSteps]
    omega

/-! ### Bridging lemmas between the real-valued audio pipeline and
rational evaluation -/

theorem dbToFloat_zero : dbToFloat 0 = 1 := by
  rw [dbToFloat]
  norm_num

theorem dbToFloat_neg120 : dbToFloat (-120) = ((1 / 1000000 : ℚ) : ℝ) := by
  rw [dbToFloat]
  have h1 : ((( -120 : ℚ) : ℝ)) / 20 = ((-6 : ℤ) : ℝ) := by push_cast; norm_num
  rw [h1, Real.rpow_intCast]
  push_cast
  norm_num

theorem pyIntR_ratCast (q : ℚ) : pyIntR ((q : ℚ) : ℝ) = pyIntQ q := by
  rw [pyIntR, pyIntQ]
  by_cases h : q < 0
  · rw [if_pos h, if_pos (by exact_mod_cast h)]
    congr 1
    rw [← Rat.cast_neg, Rat.floor_cast]
  · rw [if_neg h, if_neg (by exact_mod_cast h)]
    rw [Rat.floor_cast]

theorem fbound_ratCast (q : ℚ) (h1 : ¬ (32767 : ℚ) < q) (h2 : ¬ q < -32767) :
    fbound ((q : ℚ) : ℝ) = ⌊q⌋ := by
  rw [fbound, if_neg (by exact_mod_cast h1), if_neg (by exact_mod_cast h2), Rat.floor_cast]

theorem fbound_bounds (x : ℝ) : -32768 ≤ fbound x ∧ fbound x ≤ 32767 := by
  rw [fbound]
  split_ifs with h1 h2
  · omega
  · omega
  · constructor
    · have : ((-32767 : ℤ) : ℝ) ≤ x := by push_cast; linarith [not_lt.1 h2]
      have := Int.le_floor.2 this
      omega
    · have : x ≤ ((32767 : ℤ) : ℝ) := by push_cast; linarith [not_lt.1 h1]
      have := Int.floor_le_floor this
      rwa [Int.floor_intCast] at this

theorem mulSample_bounds (factor : ℝ) (s : ℤ) :
    -32768 ≤ mulSample factor s ∧ mulSample factor s ≤ 32767 :=
  fbound_bounds _

theorem satAdd_bounds (a b : ℤ) : -32768 ≤ satAdd a b ∧ satAdd a b ≤ 32767 := by
  rw [satAdd]
  split_ifs <;> omega

/-! ## pydub sample-level model

The repository's buffers are pydub `AudioSegment`s: mono 16-bit data at a
fixed frame rate.  The pieces of pydub the repository exercises are
modelled below at the frame level:

* `Sine(freq).to_audio_segment(duration)` (pydub.generators) at pydub's
  default 44100 frames/second and default bit depth 16, peak value 32767;
* `fade_in(5)` / `fade_out(5)` (the only fades the repository performs);
  both have `duration = 5 ≤ 100` ms, so pydub takes its per-frame branch:
  a linear gain ramp over `int(fade_frames) = int(220.5) = 220` frames,
  scaled through `audioop.mul`;
* millisecond slicing `self[a:b]`, which converts milliseconds to frames
  with `int(frame_count(ms))` and then slices with Python semantics
  (negative indices wrap, out-of-range clamps);
* `AudioSegment.silent(duration)` at its default 11025 frames/second;
* `overlay(seg, position)`: split at the position, `audioop.add`
  (saturating) on the overlapped region, the overlaid segment truncated
  to what fits, remainder of the base appended unchanged;
* `seg - gain_db` = `apply_gain(-gain_db)` = `audioop.mul` by
  `db_to_float(-gain_db)`.

`overlay`'s frame-rate synchronization step (`AudioSegment._sync`,
resampling the lower-rate operand) is not modelled: positions are
converted at 44100 frames/second.  No claim below depends on the
contents of a buffer produced by a cross-rate overlay. -/

/-- Python sequence-slice index normalization: negative indices count
from the end, and indices are clamped to `[0, n]`. -/
def pySliceIdx (n : ℕ) (i : ℤ) : ℕ :=
  if i < 0 then (max 0 ((n : ℤ) + i)).toNat else (min i (n : ℤ)).toNat

/-- Python slice `b[i:j]` at the frame level. -/
def listSlice (b : List ℤ) (i j : ℤ) : List ℤ :=
  (b.take (pySliceIdx b.length j)).drop (pySliceIdx b.length i)

/-- pydub `get_frame(idx)`: one frame, Python-indexed (negative wraps,
out of range yields nothing). -/
def getFrame (b : List ℤ) (idx : ℤ) : Option ℤ :=
  if idx < 0 then
    if 0 ≤ (b.length : ℤ) + idx then b.get? ((b.length : ℤ) + idx).toNat else none
  else b.get? idx.toNat

/-- `int(self.frame_count(ms))`: millisecond position to frame index at
44100 frames/second. -/
def msFrame (ms : ℤ) : ℤ := pyIntQ ((44100 : ℚ) * ms / 1000)

/-- pydub `len(self)` in milliseconds for an `n`-frame segment at
44100 frames/second: `round(1000 * (frame_count / frame_rate))`. -/
def segLenMs (n : ℕ) : ℤ := pyRound (1000 * n / 44100)

/-- pydub millisecond positions: a negative position counts back from
the end of the segment (Python slice convention, applied in
milliseconds before frame conversion). -/
def wrapMs (lenMs pos : ℤ) : ℤ := if pos < 0 then pos + lenMs else pos

/-- `Sine(freq)` sample `i` after 16-bit quantization in
`to_audio_segment` (`int(sin(freq * 2 * pi * (i / 44100)) * 32767 *
db_to_float(0.0))`). -/
noncomputable def sineSample (freq : ℚ) (i : ℕ) : ℤ :=
  pyIntR (Real.sin ((freq : ℝ) * 2 * Real.pi * ((i : ℝ) / 44100)) * 32767 * dbToFloat 0)

/-- `to_audio_segment`'s `sample_count = int(44100 * (duration /
1000.0))` for a millisecond duration, signed: pydub passes this value to
`itertools.islice`, which raises `ValueError` when it is negative
(i.e. for a negative millisecond duration). -/
def toneFrameCountZ (ms : ℤ) : ℤ := pyIntQ ((44100 : ℚ) * ms / 1000)

/-- Frame count of a successfully synthesized tone.  Callers reach the
tone data only when `toneFrameCountZ` is nonnegative (`generate_click`
and `generate_metronome` below surface the negative case as the
`ValueError` pydub raises). -/
def toneFrameCount (ms : ℤ) : ℕ := (toneFrameCountZ ms).toNat

/-- `Sine(freq).to_audio_segment(duration=ms)`, success path. -/
noncomputable def sineSegment (freq : ℚ) (ms : ℤ) : List ℤ :=
  (List.range (toneFrameCount ms)).map (sineSample freq)

/-- Gain factor at fade-in frame `i`: `from_power + (gain_delta /
fade_frames) * i` with `from_power = db_to_float(-120)`,
`gain_delta = 1 - from_power`, `fade_frames = 220.5`. -/
noncomputable def fadeInFactor (i : ℕ) : ℝ :=
  dbToFloat (-120) + (1 - dbToFloat (-120)) / (441 / 2) * i

/-- Gain factor at fade-out frame `i`: `from_power = 1`,
`gain_delta = db_to_float(-120) - 1`, `fade_frames = 220.5`. -/
noncomputable def fadeOutFactor (i : ℕ) : ℝ :=
  1 + (dbToFloat (-120) - 1) / (441 / 2) * i

/-- pydub `fade_in(5)`: frames `int(0 + i)` for `i < int(220.5)` get the
ramp factor (frames past the end contribute nothing), then the rest of
the segment, `self[5:]`, unchanged. -/
noncomputable def fadeIn5 (b : List ℤ) : List ℤ :=
  ((List.range 220).filterMap fun (i : ℕ) =>
      (getFrame b (i : ℤ)).map (mulSample (fadeInFactor i)))
    ++ listSlice b (msFrame (min 5 (segLenMs b.length))) (msFrame (segLenMs b.length))

/-- pydub `fade_out(5)`: `self[:len - 5]` unchanged (`from_gain = 0`),
then frames `int(frame_count(len - 5) + i)` for `i < 220` get the ramp
factor, then `self[len:]` (empty) at `to_gain`. -/
noncomputable def fadeOut5 (b : List ℤ) : List ℤ :=
  listSlice b 0 (msFrame (wrapMs (segLenMs b.length) (segLenMs b.length - 5)))
    ++ ((List.range 220).filterMap fun (i : ℕ) =>
        (getFrame b (pyIntQ ((441 : ℚ) / 10 * (segLenMs b.length - 5) + (i : ℚ)))).map
          (mulSample (fadeOutFactor i)))
    ++ (listSlice b (msFrame (segLenMs b.length)) (msFrame (segLenMs b.length))).map
        (mulSample (dbToFloat (-120)))

/-- `AudioGenerator.generate_click` (lines 24-45 of
src/audio_generator.py), body:
`Sine(frequency).to_audio_segment(duration=int(duration * 1000))`, then
`.fade_in(5).fade_out(5)`, then `- (100 * (1 - volume))`. -/
noncomputable def generateClickSeg (frequency duration volume : ℚ) : List ℤ :=
  (fadeOut5 (fadeIn5 (sineSegment frequency (pyIntQ (duration * 1000))))).map
    (mulSample (dbToFloat (-(100 * (1 - volume)))))

/-- The raw tone of the specification's fade clause: the click pipeline
with the fade step skipped (tone synthesis, then the volume gain).
Modelled from the spec for comparison with `generateClickSeg`; the
repository itself has no fade-skipping path. -/
noncomputable def rawClickSeg (frequency duration volume : ℚ) : List ℤ :=
  (sineSegment frequency (pyIntQ (duration * 1000))).map
    (mulSample (dbToFloat (-(100 * (1 - volume)))))

/-- Error kinds.  `invalidParameter` is the validation error named by
the specification; the repository's code never constructs it (it has no
parameter validation at all).  `valueError` is Python's `ValueError`,
raised inside pydub's `to_audio_segment` by `itertools.islice` when the
computed frame count is negative -- the only failure a click request
with in-range `bpm`/`beats_per_measure` can produce. -/
inductive AudioError where
  | invalidParameter
  | valueError
deriving DecidableEq, Repr

/-- `AudioGenerator.generate_click` as a fallible operation: the method
body contains no validation and no `raise` of its own, so the only
failure is pydub's `ValueError` for a negative frame count (negative
requested duration); every other input returns its buffer.
`sample_rate` is the `AudioGenerator` attribute; the body never reads
it (pydub's `Sine` synthesizes at its own default rate). -/
noncomputable def generate_click (sample_rate frequency duration volume : ℚ) :
    Except AudioError (List ℤ) :=
  if toneFrameCountZ (pyIntQ (duration * 1000)) < 0 then Except.error AudioError.valueError
  else Except.ok (generateClickSeg frequency duration volume)

/-- `AudioSegment.silent(duration=ms)`: `int(11025 * (ms / 1000.0))`
zero frames at pydub's default 11025 frames/second (the call sites pass
no `frame_rate`). -/
def silentSegment (ms : ℚ) : List ℤ :=
  List.replicate (pyIntQ (11025 * ms / 1000)).toNat 0

/-- The `allocate_silence` operation of the specification, as the code
implements it: `AudioSegment.silent(duration=duration_seconds * 1000)`
(line 74 of src/audio_generator.py and line 188 of src/generate.py).
`sample_rate` is the engine's configured rate, in scope at both call
sites; neither call passes it to pydub. -/
def allocate_silence (sample_rate duration_seconds : ℚ) : List ℤ :=
  silentSegment (duration_seconds * 1000)

/-- pydub `base.overlay(over, position=posMs)` (single pass): base up to
the position, saturating addition on the overlapped region with the
overlaid segment truncated to what remains, then the remaining base. -/
def overlayAt (base over : List ℤ) (posMs : ℤ) : List ℤ :=
  listSlice base 0 (msFrame (wrapMs (segLenMs base.length) (min posMs (segLenMs base.length))))
    ++ (List.zipWith satAdd
          (listSlice base (msFrame (wrapMs (segLenMs base.length) (min posMs (segLenMs base.length))))
            (msFrame (segLenMs base.length))) over
        ++ (listSlice base (msFrame (wrapMs (segLenMs base.length) (min posMs (segLenMs base.length))))
            (msFrame (segLenMs base.length))).drop over.length)

/-- `AudioGenerator.generate_metronome` (lines 47-100 of
src/audio_generator.py): two cached clicks, a silent base track, then
one overlay per scheduled beat at `position=int(current_time_ms)`.  No
validation is performed; the clicks are generated first (lines 70-71,
before the silent base of line 74), so a negative `click_duration`
propagates pydub's `ValueError` before any buffer is allocated, and
every other input returns the composited buffer.  `sample_rate` is the
unread `AudioGenerator` attribute. -/
noncomputable def generate_metronome (sample_rate bpm : ℚ) (beats_per_measure : ℕ)
    (duration_seconds click_frequency accent_frequency click_duration volume : ℚ)
    (accent_first : Bool) : Except AudioError (List ℤ) :=
  if toneFrameCountZ (pyIntQ (click_duration * 1000)) < 0 then Except.error AudioError.valueError
  else
    let normal_click := generateClickSeg click_frequency click_duration volume
    let accent_click := generateClickSeg accent_frequency click_duration volume
    let base := silentSegment (duration_seconds * 1000)
    Except.ok ((metronomeBeats bpm beats_per_measure duration_seconds accent_first).foldl
      (fun acc e => overlayAt acc (if e.accent then accent_click else normal_click) e.offset)
      base)

/-! ### Evaluation of the click pipeline -/

/-- Evaluate `pyRound` away from the half-integer ties (all uses in this
file are away from ties). -/
theorem pyRound_eq (x : ℚ) (n : ℤ) (h1 : (n : ℚ) - 1/2 < x) (h2 : x < (n : ℚ) + 1/2) :
    pyRound x = n := by
  have l1 : n - 1 ≤ ⌊x⌋ := Int.le_floor.2 (by push_cast; linarith)
  have l2 : ⌊x⌋ < n + 1 := Int.floor_lt.2 (by push_cast; linarith)
  rw [pyRound]
  rcases (by omega : ⌊x⌋ = n ∨ ⌊x⌋ = n - 1) with hf | hf
  · rw [if_pos (by rw [hf]; linarith)]
    exact hf
  · rw [if_neg (by rw [hf]; push_cast; linarith), if_pos (by rw [hf]; push_cast; linarith)]
    omega

theorem pySliceIdx_of_nonneg (n : ℕ) (i : ℤ) (h0 : 0 ≤ i) (h1 : i ≤ (n : ℤ)) :
    pySliceIdx n i = i.toNat := by
  rw [pySliceIdx, if_neg (not_lt.2 h0), min_eq_left h1]

theorem listSlice_self (b : List ℤ) (i : ℤ) : listSlice b i i = [] := by
  rw [listSlice]
  apply List.drop_eq_nil_of_le
  rw [List.length_take]
  omega

theorem getFrame_of_lt (b : List ℤ) (i : ℕ) (h : i < b.length) :
    getFrame b (i : ℤ) = some (b.getD i 0) := by
  rw [getFrame, if_neg (not_lt.2 (Int.natCast_nonneg i)), Int.toNat_natCast,
    List.get?_eq_getElem?, List.getElem?_eq_getElem h, List.getD_eq_getElem b 0 h]

theorem range_filterMap_getFrame (b : List ℤ) (g : ℕ → ℤ → ℤ) (k : ℕ) (hk : k ≤ b.length) :
    ((List.range k).filterMap fun (i : ℕ) => (getFrame b (i : ℤ)).map (g i))
      = (List.range k).map fun (i : ℕ) => g i (b.getD i 0) := by
  induction k with
  | zero => rfl
  | succ k ih =>
    rw [List.range_succ, List.filterMap_append, List.map_append, ih (by omega)]
    congr 1
    simp [getFrame_of_lt b k (by omega)]

theorem range_filterMap_getFrame_shift (b : List ℤ) (g : ℕ → ℤ → ℤ) (k a : ℕ) (c : ℚ)
    (hc : ∀ i : ℕ, i < k → pyIntQ (c + i) = (a : ℤ) + i) (hk : a + k ≤ b.length) :
    ((List.range k).filterMap fun (i : ℕ) => (getFrame b (pyIntQ (c + (i : ℚ)))).map (g i))
      = (List.range k).map fun (i : ℕ) => g i (b.getD (a + i) 0) := by
  induction k with
  | zero => rfl
  | succ k ih =>
    rw [List.range_succ, List.filterMap_append, List.map_append,
      ih (fun i hi => hc i (by omega)) (by omega)]
    congr 1
    have hcast : ((a : ℤ) + (k : ℤ)) = (((a + k : ℕ) : ℤ)) := by push_cast; ring
    simp only [List.filterMap_cons, List.filterMap_nil, hc k (by omega), hcast,
      getFrame_of_lt b (a + k) (by omega), Option.map_some', List.map_cons, List.map_nil]

theorem sineSegment_length (f : ℚ) (ms : ℤ) :
    (sineSegment f ms).length = toneFrameCount ms := by
  rw [sineSegment, List.length_map, List.length_range]

theorem toneFrameCount_50 : toneFrameCount 50 = 2205 := by
  rw [toneFrameCount, toneFrameCountZ, pyIntQ_eq _ 2205 (by norm_num) (by norm_num) (by norm_num)]
  rfl

theorem toneFrameCount_6 : toneFrameCount 6 = 264 := by
  rw [toneFrameCount, toneFrameCountZ, pyIntQ_eq _ 264 (by norm_num) (by norm_num) (by norm_num)]
  rfl

theorem pyIntQ_nonneg (x : ℚ) (h : 0 ≤ x) : 0 ≤ pyIntQ x := by
  rw [pyIntQ, if_neg (not_lt.2 h)]
  exact Int.floor_nonneg.2 h

/-- The frame count is nonnegative -- no `ValueError` -- exactly on
nonnegative millisecond durations. -/
theorem toneFrameCountZ_nonneg (ms : ℤ) (h : 0 ≤ ms) : 0 ≤ toneFrameCountZ ms := by
  rw [toneFrameCountZ]
  apply pyIntQ_nonneg
  have hc : (0 : ℚ) ≤ (ms : ℚ) := by exact_mod_cast h
  positivity

theorem msFrame_5 : msFrame 5 = 220 := by
  rw [msFrame]
  exact pyIntQ_eq _ _ (by norm_num) (by norm_num) (by norm_num)

theorem msFrame_6 : msFrame 6 = 264 := by
  rw [msFrame]
  exact pyIntQ_eq _ _ (by norm_num) (by norm_num) (by norm_num)

theorem msFrame_1 : msFrame 1 = 44 := by
  rw [msFrame]
  exact pyIntQ_eq _ _ (by norm_num) (by norm_num) (by norm_num)

theorem msFrame_45 : msFrame 45 = 1984 := by
  rw [msFrame]
  exact pyIntQ_eq _ _ (by norm_num) (by norm_num) (by norm_num)

theorem msFrame_50 : msFrame 50 = 2205 := by
  rw [msFrame]
  exact pyIntQ_eq _ _ (by norm_num) (by norm_num) (by norm_num)

theorem segLenMs_264 : segLenMs 264 = 6 := by
  rw [segLenMs]
  exact pyRound_eq _ _ (by norm_num) (by norm_num)

theorem segLenMs_2205 : segLenMs 2205 = 50 := by
  rw [segLenMs]
  exact pyRound_eq _ _ (by norm_num) (by norm_num)

/-- `fade_in(5)` in closed form on a segment whose frame count is
millisecond-aligned and at least the 220-frame fade window. -/
theorem fadeIn5_eval (b : List ℤ) (n : ℕ) (hb : b.length = n) (L : ℤ)
    (hL : segLenMs n = L) (h5L : (5 : ℤ) ≤ L) (q : ℕ) (hq : msFrame L = (q : ℤ))
    (hqn : q ≤ n) (h220 : 220 ≤ n) :
    fadeIn5 b = ((List.range 220).map fun (i : ℕ) => mulSample (fadeInFactor i) (b.getD i 0))
      ++ ((b.take q).drop 220) := by
  rw [fadeIn5, hb, hL, min_eq_left h5L, msFrame_5, hq, listSlice, hb,
    pySliceIdx_of_nonneg n 220 (by norm_num) (by omega),
    pySliceIdx_of_nonneg n (q : ℤ) (by omega) (by omega),
    range_filterMap_getFrame b _ 220 (by omega)]
  norm_num [Int.toNat_natCast, show ((220 : ℤ)).toNat = 220 from rfl]

/-- `fade_out(5)` in closed form under the same alignment conditions. -/
theorem fadeOut5_eval (b : List ℤ) (n : ℕ) (hb : b.length = n) (L : ℤ)
    (hL : segLenMs n = L) (h5L : (5 : ℤ) ≤ L) (p : ℕ) (hp : msFrame (L - 5) = (p : ℤ))
    (hpn : (p : ℤ) ≤ (n : ℤ))
    (hc : ∀ i : ℕ, i < 220 → pyIntQ ((441 : ℚ) / 10 * ((L : ℚ) - 5) + i) = (p : ℤ) + i)
    (hpk : p + 220 ≤ n) :
    fadeOut5 b = b.take p
      ++ ((List.range 220).map fun (i : ℕ) => mulSample (fadeOutFactor i) (b.getD (p + i) 0)) := by
  rw [fadeOut5, hb, hL, wrapMs, if_neg (by omega), hp, listSlice, hb,
    pySliceIdx_of_nonneg n 0 (by norm_num) (by omega),
    pySliceIdx_of_nonneg n (p : ℤ) (by omega) hpn,
    listSlice_self, List.map_nil, List.append_nil,
    range_filterMap_getFrame_shift b _ 220 p _ hc (by omega)]
  norm_num [Int.toNat_natCast, Int.toNat_ofNat, List.drop_zero]

/-- At 11025 Hz and pydub's 44100 frames/second, sample 1 of the sine
generator sits exactly on the crest: `sin(pi/2) = 1`, quantized to the
16-bit peak 32767. -/
theorem sineSample_11025_1 : sineSample 11025 1 = 32767 := by
  rw [sineSample, dbToFloat_zero]
  have harg : ((11025 : ℚ) : ℝ) * 2 * Real.pi * (((1 : ℕ) : ℝ) / 44100) = Real.pi / 2 := by
    push_cast
    ring
  rw [harg, Real.sin_pi_div_two]
  rw [show (1 : ℝ) * 32767 * 1 = ((32767 : ℚ) : ℝ) by norm_num]
  rw [pyIntR_ratCast]
  exact pyIntQ_eq _ _ (by norm_num) (by norm_num) (by norm_num)

theorem fadeInFactor_1 : fadeInFactor 1 = ((2000439 / 441000000 : ℚ) : ℝ) := by
  rw [fadeInFactor, dbToFloat_neg120]
  push_cast
  norm_num

theorem mulSample_fadeIn1_32767 : mulSample (fadeInFactor 1) 32767 = 148 := by
  rw [mulSample, fadeInFactor_1]
  rw [show ((32767 : ℤ) : ℝ) * ((2000439 / 441000000 : ℚ) : ℝ)
      = ((65548384713 / 441000000 : ℚ) : ℝ) by push_cast; norm_num]
  rw [fbound_ratCast _ (by norm_num) (by norm_num)]
  exact Int.floor_eq_iff.2 ⟨by norm_num, by norm_num⟩

/-- `audioop.mul` by factor 1 is the identity on in-range samples. -/
theorem mulSample_one (s : ℤ) (h1 : -32767 ≤ s) (h2 : s ≤ 32767) : mulSample 1 s = s := by
  rw [mulSample, mul_one, show ((s : ℤ) : ℝ) = (((s : ℚ)) : ℝ) by push_cast; ring]
  rw [fbound_ratCast _ (by exact_mod_cast not_lt.2 h2) (by exact_mod_cast not_lt.2 h1)]
  exact Int.floor_intCast s

theorem generateClickSeg_length_50ms (f v : ℚ) :
    (generateClickSeg f (1 / 20) v).length = 2204 := by
  rw [generateClickSeg,
    show pyIntQ ((1 / 20 : ℚ) * 1000) = 50 from
      pyIntQ_eq _ _ (by norm_num) (by norm_num) (by norm_num)]
  have hslen : (sineSegment f 50).length = 2205 := by
    rw [sineSegment_length, toneFrameCount_50]
  have hfi := fadeIn5_eval (sineSegment f 50) 2205 hslen 50 segLenMs_2205 (by norm_num)
    2205 (by simp [msFrame_50]) le_rfl (by norm_num)
  have hb1len : (fadeIn5 (sineSegment f 50)).length = 2205 := by
    rw [hfi]
    simp [hslen]
  have hfo := fadeOut5_eval (fadeIn5 (sineSegment f 50)) 2205 hb1len 50 segLenMs_2205
    (by norm_num) 1984 (by norm_num [msFrame_45]) (by norm_num)
    (fun i hi => pyIntQ_eq _ _
      (by push_cast; positivity)
      (by push_cast; linarith [Nat.cast_nonneg (α := ℚ) i])
      (by push_cast; linarith [Nat.cast_nonneg (α := ℚ) i]))
    (by norm_num)
  rw [List.length_map, hfo]
  simp [hb1len]

theorem generateClickSeg_6ms_length (f v : ℚ) :
    (generateClickSeg f (6 / 1000) v).length = 264 := by
  rw [generateClickSeg,
    show pyIntQ ((6 / 1000 : ℚ) * 1000) = 6 from
      pyIntQ_eq _ _ (by norm_num) (by norm_num) (by norm_num)]
  have hslen : (sineSegment f 6).length = 264 := by
    rw [sineSegment_length, toneFrameCount_6]
  have hfi := fadeIn5_eval (sineSegment f 6) 264 hslen 6 segLenMs_264 (by norm_num)
    264 (by simp [msFrame_6]) le_rfl (by norm_num)
  have hb1len : (fadeIn5 (sineSegment f 6)).length = 264 := by
    rw [hfi]
    simp [hslen]
  have hfo := fadeOut5_eval (fadeIn5 (sineSegment f 6)) 264 hb1len 6 segLenMs_264
    (by norm_num) 44 (by norm_num [msFrame_1]) (by norm_num)
    (fun i hi => pyIntQ_eq _ _
      (by push_cast; positivity)
      (by push_cast; linarith [Nat.cast_nonneg (α := ℚ) i])
      (by push_cast; linarith [Nat.cast_nonneg (α := ℚ) i]))
    (by norm_num)
  rw [List.length_map, hfo]
  simp [hb1len]

/-- Sample 1 of a 6 ms click, symbolically: the fade-in ramp factor is
applied to tone sample 1 before the volume gain -- the fade is not
skipped even though 6 ms is shorter than twice the 5 ms fade window. -/
theorem generateClickSeg_6ms_get1_symbolic (f v : ℚ) :
    (generateClickSeg f (6 / 1000) v).get? 1 =
      some (mulSample (dbToFloat (-(100 * (1 - v))))
        (mulSample (fadeInFactor 1) ((sineSegment f 6).getD 1 0))) := by
  rw [generateClickSeg,
    show pyIntQ ((6 / 1000 : ℚ) * 1000) = 6 from
      pyIntQ_eq _ _ (by norm_num) (by norm_num) (by norm_num)]
  have hslen : (sineSegment f 6).length = 264 := by
    rw [sineSegment_length, toneFrameCount_6]
  have hfi := fadeIn5_eval (sineSegment f 6) 264 hslen 6 segLenMs_264 (by norm_num)
    264 (by simp [msFrame_6]) le_rfl (by norm_num)
  have hb1len : (fadeIn5 (sineSegment f 6)).length = 264 := by
    rw [hfi]
    simp [hslen]
  have hfo := fadeOut5_eval (fadeIn5 (sineSegment f 6)) 264 hb1len 6 segLenMs_264
    (by norm_num) 44 (by norm_num [msFrame_1]) (by norm_num)
    (fun i hi => pyIntQ_eq _ _
      (by push_cast; positivity)
      (by push_cast; linarith [Nat.cast_nonneg (α := ℚ) i])
      (by push_cast; linarith [Nat.cast_nonneg (α := ℚ) i]))
    (by norm_num)
  rw [List.get?_map, hfo]
  rw [List.get?_append (by rw [List.length_take, hb1len]; norm_num)]
  rw [List.get?_take (by norm_num)]
  rw [hfi]
  rw [List.get?_append (by simp)]
  rw [List.get?_map, List.get?_range (by norm_num)]
  rfl

theorem generateClickSeg_6ms_get1 :
    (generateClickSeg 11025 (6 / 1000) 1).get? 1 = some 148 := by
  rw [generateClickSeg_6ms_get1_symbolic 11025 1]
  have hgetD : (sineSegment 11025 6).getD 1 0 = sineSample 11025 1 := by
    rw [sineSegment, List.getD_eq_getElem?_getD]
    simp [List.getElem?_range, toneFrameCount_6]
  rw [hgetD, sineSample_11025_1, mulSample_fadeIn1_32767]
  rw [show (-(100 * ((1 : ℚ) - 1))) = 0 by norm_num, dbToFloat_zero,
    mulSample_one 148 (by norm_num) (by norm_num)]

theorem rawClickSeg_6ms_get1 :
    (rawClickSeg 11025 (6 / 1000) 1).get? 1 = some 32767 := by
  rw [rawClickSeg,
    show pyIntQ ((6 / 1000 : ℚ) * 1000) = 6 from
      pyIntQ_eq _ _ (by norm_num) (by norm_num) (by norm_num)]
  rw [List.get?_map]
  have hget : (sineSegment 11025 6).get? 1 = some (sineSample 11025 1) := by
    rw [sineSegment, List.get?_map, List.get?_range (by rw [toneFrameCount_6]; norm_num)]
    rfl
  rw [hget, sineSample_11025_1]
  simp only [Option.map_some']
  rw [show (-(100 * ((1 : ℚ) - 1))) = 0 by norm_num, dbToFloat_zero,
    mulSample_one 32767 (by norm_num) (by norm_num)]

/-- One element of the `announcements` list consumed by
`mix_audio_with_voice`: the mixer reads the `time` key, the optional
`text` key, and falls back to `distance`. -/
structure MixAnn where
  time : ℚ
  text : Option String
  distance : ℚ

/-- `text = announcement.get('text'); if not text: text =
f-string of distance + "米"` (`not text` is true for a missing key and
for the empty string). -/
def mixText (a : MixAnn) : String :=
  match a.text with
  | some t => if t = "" then toString a.distance ++ "米" else t
  | none => toString a.distance ++ "米"

/-- `AudioGenerator.mix_audio_with_voice` (lines 136-178 of
src/audio_generator.py): fold over the announcements in input order; an
announcement whose text is in `voice_files_map` has its decoded clip
attenuated by `100 * (1 - voice_volume)` dB and overlaid at
`position=int(time * 1000)`; any other announcement leaves the
accumulator untouched.  `voice_files_map` maps a text to the decoded
samples of its voice file (`AudioSegment.from_mp3`). -/
noncomputable def mix_audio_with_voice (base_audio : List ℤ)
    (voice_files_map : List (String × List ℤ)) (announcements : List MixAnn)
    (voice_volume : ℚ) : List ℤ :=
  announcements.foldl
    (fun result a =>
      match voice_files_map.lookup (mixText a) with
      | some clip =>
          overlayAt result (clip.map (mulSample (dbToFloat (-(100 * (1 - voice_volume))))))
            (pyIntQ (a.time * 1000))
      | none => result)
    base_audio

/-! ### Range-preservation helpers -/

theorem pyIntQ_of_nonneg (x : ℚ) (h : 0 ≤ x) : pyIntQ x = ⌊x⌋ := by
  rw [pyIntQ, if_neg (not_lt.2 h)]

theorem inRange_of_mem_listSlice (b : List ℤ) (i j : ℤ) (s : ℤ)
    (hs : s ∈ listSlice b i j) (hb : ∀ t ∈ b, -32768 ≤ t ∧ t ≤ 32767) :
    -32768 ≤ s ∧ s ≤ 32767 := by
  apply hb
  rw [listSlice] at hs
  exact List.mem_of_mem_take (List.mem_of_mem_drop hs)

theorem inRange_of_mem_zipWith_satAdd (l1 l2 : List ℤ) (s : ℤ)
    (hs : s ∈ List.zipWith satAdd l1 l2) : -32768 ≤ s ∧ s ≤ 32767 := by
  induction l1 generalizing l2 with
  | nil => simp at hs
  | cons a l1 ih =>
    cases l2 with
    | nil => simp at hs
    | cons c l2 =>
      rw [List.zipWith_cons_cons] at hs
      rcases List.mem_cons.1 hs with h | h
      · rw [h]; exact satAdd_bounds a c
      · exact ih l2 h

theorem overlayAt_preserves_range (base over : List ℤ) (pos : ℤ)
    (hb : ∀ t ∈ base, -32768 ≤ t ∧ t ≤ 32767) :
    ∀ s ∈ overlayAt base over pos, -32768 ≤ s ∧ s ≤ 32767 := by
  intro s hs
  rw [overlayAt] at hs
  rcases List.mem_append.1 hs with h | h
  · exact inRange_of_mem_listSlice base _ _ s h hb
  · rcases List.mem_append.1 h with h2 | h2
    · exact inRange_of_mem_zipWith_satAdd _ over s h2
    · exact inRange_of_mem_listSlice base _ _ s (List.mem_of_mem_drop h2) hb

theorem mix_preserves_range (anns : List MixAnn) (vmap : List (String × List ℤ)) (vol : ℚ) :
    ∀ base : List ℤ, (∀ t ∈ base, -32768 ≤ t ∧ t ≤ 32767) →
      ∀ s ∈ mix_audio_with_voice base vmap anns vol, -32768 ≤ s ∧ s ≤ 32767 := by
  induction anns with
  | nil => intro base hb s hs; rw [mix_audio_with_voice, List.foldl_nil] at hs; exact hb s hs
  | cons a anns ih =>
    intro base hb s hs
    rw [mix_audio_with_voice, List.foldl_cons] at hs
    rcases hlk : vmap.lookup (mixText a) with _ | clip
    · rw [hlk] at hs
      exact ih base hb s hs
    · rw [hlk] at hs
      exact ih _ (overlayAt_preserves_range base _ _ hb) s hs

theorem metronome_foldl_preserves_range (l : List BeatEvent) (nc ac : List ℤ) :
    ∀ base : List ℤ, (∀ t ∈ base, -32768 ≤ t ∧ t ≤ 32767) →
      ∀ s ∈ l.foldl (fun acc e => overlayAt acc (if e.accent then ac else nc) e.offset) base,
        -32768 ≤ s ∧ s ≤ 32767 := by
  induction l with
  | nil => intro base hb s hs; rw [List.foldl_nil] at hs; exact hb s hs
  | cons e l ih =>
    intro base hb s hs
    rw [List.foldl_cons] at hs
    exact ih _ (overlayAt_preserves_range base _ _ hb) s hs

/-- Normalization bridge: a sample in the signed 16-bit range sits in
the normalized amplitude range `[-1, 1]` (full-scale convention
`s / 2^15`). -/
theorem normalized_of_inRange (s : ℤ) (h1 : -32768 ≤ s) (h2 : s ≤ 32767) :
    -1 ≤ (s : ℚ) / 32768 ∧ (s : ℚ) / 32768 ≤ 1 := by
  have h1' : ((-32768 : ℤ) : ℚ) ≤ (s : ℚ) := by exact_mod_cast h1
  have h2' : (s : ℚ) ≤ ((32767 : ℤ) : ℚ) := by exact_mod_cast h2
  push_cast at h1' h2'
  constructor
  · rw [le_div_iff₀ (by norm_num : (0 : ℚ) < 32768)]
    linarith
  · rw [div_le_iff₀ (by norm_num : (0 : ℚ) < 32768)]
    linarith

theorem metronomeBeats_neg_duration (bpm : ℚ) (bm : ℕ) (d : ℚ) (af : Bool)
    (hq : 0 < 60 / bpm * 1000) (hd : d ≤ 0) : metronomeBeats bpm bm d af = [] := by
  rw [metronomeBeats, numBeats_eq_zero _ _ hq (by nlinarith), List.range_zero, List.map_nil]

/-! ## Claim theorems -/

/-- C1, counterexample.  The claim places every beat at an exact
multiple of a once-truncated integer interval `k = floor(sample_rate *
60 / bpm)`.  At `bpm = 7` under the claim's own `sample_rate = 1000`
convention (one sample per millisecond, as in its scenario), the code's
fourth beat lands at offset `int(3 * (60000 / 7)) = 25714`, while the
claim requires `3 * floor(60000 / 7) = 25713`. -/
theorem c1_counterexample :
    (metronomeBeats 7 4 26 true).map BeatEvent.offset = [0, 8571, 17142, 25714] ∧
    (3 : ℤ) * ⌊(1000 * 60 / 7 : ℚ)⌋ = 25713 := by
  constructor
  · rw [metronomeBeats, numBeats_eq _ _ 4 (by norm_num) (by norm_num) (by norm_num)]
    apply List.ext_getElem?
    intro i
    obtain _ | _ | _ | _ | i := i
    all_goals simp
    all_goals exact pyIntQ_eq _ _ (by norm_num) (by norm_num) (by norm_num)
  · rw [show ⌊(1000 * 60 / 7 : ℚ)⌋ = 8571 from Int.floor_eq_iff.2 ⟨by norm_num, by norm_num⟩]
    norm_num

/-- C1, amended.  Beat `i` is scheduled at millisecond offset
`floor(i * (60000 / bpm))`: the exact accumulated interval is truncated
per beat, not once.  At one sample per millisecond (the claim's
scenario convention) the stated scenario holds: `bpm = 60`,
`beats_per_measure = 4`, 4 s produce exactly 4 beats at offsets 0,
1000, 2000, 3000, the first accented and the rest not. -/
theorem c1_amended :
    (∀ (bpm : ℚ) (bm : ℕ) (d : ℚ) (af : Bool), 0 < bpm →
      ∀ i : ℕ, i < (metronomeBeats bpm bm d af).length →
        ((metronomeBeats bpm bm d af).getD i ⟨0, false⟩).offset
          = ⌊(i : ℚ) * (60 / bpm * 1000)⌋) ∧
    metronomeBeats 60 4 4 true = [⟨0, true⟩, ⟨1000, false⟩, ⟨2000, false⟩, ⟨3000, false⟩] := by
  constructor
  · intro bpm bm d af hbpm i hi
    rw [metronomeBeats] at hi ⊢
    rw [List.getD_eq_getElem?_getD, List.getElem?_map]
    rw [List.length_map, List.length_range] at hi
    rw [List.getElem?_range hi]
    simp only [Option.map_some', Option.getD_some]
    exact pyIntQ_of_nonneg _ (by positivity)
  · rw [metronomeBeats, numBeats_eq _ _ 4 (by norm_num) (by norm_num) (by norm_num)]
    apply List.ext_getElem?
    intro i
    obtain _ | _ | _ | _ | i := i
    all_goals simp
    all_goals exact pyIntQ_eq _ _ (by norm_num) (by norm_num) (by norm_num)

/-- C1, witness for the amended theorem at `bpm = 7`, beat 3. -/
theorem c1_witness :
    ((metronomeBeats 7 4 26 true).getD 3 ⟨0, false⟩).offset
      = ⌊((3 : ℕ) : ℚ) * (60 / 7 * 1000)⌋ :=
  c1_amended.1 7 4 26 true (by norm_num) 3
    (by rw [metronomeBeats, List.length_map, List.length_range,
          numBeats_eq _ _ 4 (by norm_num) (by norm_num) (by norm_num)]
        norm_num)

/-- C2, counterexample.  The claim asserts strictly increasing offsets
and that the last offset plus the click length never exceeds the
duration.  At `bpm = 120000` (interval 0.5 ms) with a 2 ms track the
scheduled offsets are 0, 0, 1, 1 -- not strictly increasing -- and with
the default 50 ms click (2204 frames at 44100 frames/second) the last
offset 1 ms plus the click length far exceeds the 2 ms buffer; the
scheduler has no fit check at all. -/
theorem c2_counterexample :
    (metronomeBeats 120000 4 (1 / 500) true).map BeatEvent.offset = [0, 0, 1, 1] ∧
    (1 : ℚ) + 1000 * ((generateClickSeg 800 (1 / 20) (1 / 2)).length : ℚ) / 44100
      > (1 / 500) * 1000 := by
  constructor
  · rw [metronomeBeats, numBeats_eq _ _ 4 (by norm_num) (by norm_num) (by norm_num)]
    apply List.ext_getElem?
    intro i
    obtain _ | _ | _ | _ | i := i
    all_goals simp
    all_goals exact pyIntQ_eq _ _ (by norm_num) (by norm_num) (by norm_num)
  · rw [generateClickSeg_length_50ms]
    norm_num

/-- C2, amended.  For `0 < bpm` the scheduled offsets are nondecreasing
(strictly increasing whenever `bpm ≤ 60000`, i.e. whenever the beat
interval is at least one millisecond); every scheduled offset is
strictly below `duration * 1000` ms; and a beat is scheduled exactly
when its start lies below the duration -- the click length plays no
role, so a trailing click that does not fully fit is truncated by the
overlay rather than dropped. -/
theorem c2_amended :
    ∀ (bpm : ℚ) (bm : ℕ) (d : ℚ) (af : Bool), 0 < bpm →
      (((metronomeBeats bpm bm d af).map BeatEvent.offset).Pairwise (· ≤ ·)) ∧
      (bpm ≤ 60000 → ((metronomeBeats bpm bm d af).map BeatEvent.offset).Pairwise (· < ·)) ∧
      (∀ e ∈ metronomeBeats bpm bm d af, (e.offset : ℚ) < d * 1000) ∧
      (∀ i : ℕ, i < (metronomeBeats bpm bm d af).length ↔ (i : ℚ) * (60 / bpm * 1000) < d * 1000) := by
  intro bpm bm d af hbpm
  have hq : (0 : ℚ) < 60 / bpm * 1000 := by positivity
  refine ⟨?_, ?_, ?_, ?_⟩
  · rw [metronomeBeats, List.map_map]
    refine (List.pairwise_lt_range _).map _ (fun i j hij => ?_)
    simp only [Function.comp_apply]
    rw [pyIntQ_of_nonneg _ (by positivity), pyIntQ_of_nonneg _ (by positivity)]
    apply Int.floor_le_floor
    have : (i : ℚ) ≤ (j : ℚ) := by exact_mod_cast hij.le
    nlinarith
  · intro hbpm2
    have hq1 : (1 : ℚ) ≤ 60 / bpm * 1000 := by
      rw [div_mul_eq_mul_div, le_div_iff₀ hbpm]
      linarith
    rw [metronomeBeats, List.map_map]
    refine (List.pairwise_lt_range _).map _ (fun i j hij => ?_)
    simp only [Function.comp_apply]
    rw [pyIntQ_of_nonneg _ (by positivity), pyIntQ_of_nonneg _ (by positivity)]
    have step : (i : ℚ) * (60 / bpm * 1000) + 1 ≤ (j : ℚ) * (60 / bpm * 1000) := by
      have hji : (i : ℚ) + 1 ≤ (j : ℚ) := by exact_mod_cast hij
      nlinarith
    calc ⌊(i : ℚ) * (60 / bpm * 1000)⌋ < ⌊(i : ℚ) * (60 / bpm * 1000)⌋ + 1 := by omega
    _ = ⌊(i : ℚ) * (60 / bpm * 1000) + 1⌋ := (Int.floor_add_one _).symm
    _ ≤ ⌊(j : ℚ) * (60 / bpm * 1000)⌋ := Int.floor_le_floor step
  · intro e he
    rw [metronomeBeats] at he
    rcases List.mem_map.1 he with ⟨i, hi, rfl⟩
    rcases List.mem_range.1 hi with hilt
    have hstart : (i : ℚ) * (60 / bpm * 1000) < d * 1000 := (lt_numBeats_iff _ _ hq i).1 hilt
    simp only
    rw [pyIntQ_of_nonneg _ (by positivity)]
    calc ((⌊(i : ℚ) * (60 / bpm * 1000)⌋ : ℚ)) ≤ (i : ℚ) * (60 / bpm * 1000) := Int.floor_le _
    _ < d * 1000 := hstart
  · intro i
    rw [metronomeBeats, List.length_map, List.length_range]
    exact lt_numBeats_iff _ _ hq i

/-- C2, witness for the amended theorem: at `bpm = 100`, 2 s, the
scheduling criterion for beat 3 is exactly `3 * 600 < 2000`. -/
theorem c2_witness :
    3 < (metronomeBeats 100 4 2 true).length ↔ ((3 : ℕ) : ℚ) * (60 / 100 * 1000) < 2 * 1000 :=
  (c2_amended 100 4 2 true (by norm_num)).2.2.2 3

/-- C7, counterexample.  The claim marks beat index 0 accented
unconditionally; in the code `is_accent` is `False` for every beat when
`accent_first` is false, so with `accent_first = false` the single beat
of a 1 s track at 60 bpm is not accented. -/
theorem c7_counterexample :
    metronomeBeats 60 4 1 false = [⟨0, false⟩] := by
  rw [metronomeBeats, numBeats_eq _ _ 1 (by norm_num) (by norm_num) (by norm_num)]
  apply List.ext_getElem?
  intro i
  obtain _ | i := i
  all_goals simp
  exact pyIntQ_eq _ _ (by norm_num) (by norm_num) (by norm_num)

/-- C7, amended.  Beat `i` is accented iff `accent_first` is true and
`i % beats_per_measure = 0`; in particular with `beats_per_measure = 4`
and `accent_first = true` exactly the indices divisible by 4 are
accented. -/
theorem c7_amended :
    (∀ (bpm : ℚ) (bm : ℕ) (d : ℚ) (af : Bool), 0 < bpm → 1 ≤ bm →
      ∀ i : ℕ, i < (metronomeBeats bpm bm d af).length →
        ((metronomeBeats bpm bm d af).getD i ⟨0, false⟩).accent
          = (af && decide (i % bm = 0))) ∧
    (∀ (bpm d : ℚ), 0 < bpm →
      ∀ i : ℕ, i < (metronomeBeats bpm 4 d true).length →
        (((metronomeBeats bpm 4 d true).getD i ⟨0, false⟩).accent = true ↔ i % 4 = 0)) := by
  have key : ∀ (bpm : ℚ) (bm : ℕ) (d : ℚ) (af : Bool),
      ∀ i : ℕ, i < (metronomeBeats bpm bm d af).length →
        ((metronomeBeats bpm bm d af).getD i ⟨0, false⟩).accent
          = (af && decide (i % bm = 0)) := by
    intro bpm bm d af i hi
    rw [metronomeBeats] at hi ⊢
    rw [List.length_map, List.length_range] at hi
    rw [List.getD_eq_getElem?_getD, List.getElem?_map, List.getElem?_range hi]
    rfl
  refine ⟨fun bpm bm d af _ _ => key bpm bm d af, fun bpm d _ i hi => ?_⟩
  rw [key bpm 4 d true i hi]
  simp

/-- C7, witness for the amended theorem: beat 0 of the scenario track is
accented because `accent_first` is true and `0 % 4 = 0`. -/
theorem c7_witness :
    ((metronomeBeats 60 4 4 true).getD 0 ⟨0, false⟩).accent = (true && decide (0 % 4 = 0)) :=
  c7_amended.1 60 4 4 true (by norm_num) (by norm_num) 0
    (by rw [metronomeBeats, List.length_map, List.length_range,
          numBeats_eq _ _ 4 (by norm_num) (by norm_num) (by norm_num)]
        norm_num)

/-- C6, confirmed.  For positive `interval` and `time_per_100m` (and a
nonzero pool length, without which the Python code would divide by
zero), `calculate_announcement_times` produces exactly one announcement
per multiple of `interval` -- the `j`-th (0-based) at distance
`(j + 1) * interval` with time `distance * (time_per_100m / 100)`,
`laps = distance / pool_length` and `hundreds = distance / 100` -- every
produced time is strictly below `total_duration`, and the 1-based `k`-th
announcement exists exactly when its time is strictly below
`total_duration` (exclusive stop at the first time that reaches it). -/
theorem c6_announcement_schedule :
    ∀ (pool t100 interval total : ℚ), 0 < interval → 0 < t100 → pool ≠ 0 →
      (calculate_announcement_times pool t100 interval total =
        (List.range (annSteps (t100 / 100) interval total interval)).map
          (fun (j : ℕ) => annEntry (t100 / 100) pool (((j + 1 : ℕ) : ℚ) * interval))) ∧
      (∀ a ∈ calculate_announcement_times pool t100 interval total,
        a.time = a.distance * (t100 / 100) ∧ a.time < total ∧
        a.laps = a.distance / pool ∧ a.hundreds = a.distance / 100) ∧
      (∀ k : ℕ, 1 ≤ k →
        (k ≤ annSteps (t100 / 100) interval total interval
          ↔ (k : ℚ) * interval * (t100 / 100) < total)) := by
  intro pool t100 interval total hi ht hp
  have hq : 0 < interval * (t100 / 100) := by positivity
  have hmain := calculate_announcement_times_eq pool t100 interval total hq
  refine ⟨hmain, ?_, le_annSteps_iff (t100 / 100) interval total hq⟩
  intro a ha
  rw [hmain] at ha
  rcases List.mem_map.1 ha with ⟨j, hj, rfl⟩
  rcases List.mem_range.1 hj with hjlt
  have htime : (((j + 1 : ℕ) : ℚ)) * interval * (t100 / 100) < total :=
    ((le_annSteps_iff (t100 / 100) interval total hq (j + 1) (by omega)).1 (by omega))
  refine ⟨rfl, ?_, rfl, rfl⟩
  rw [annEntry]
  simpa [mul_assoc] using htime

/-- C6, witness: pool 25 m, 105 s per 100 m, announcements every 25 m,
100 s of audio: announcements at 25 m, 50 m, 75 m; the one at 100 m
would fall at 105 s ≥ 100 s and is excluded. -/
theorem c6_witness :
    calculate_announcement_times 25 105 25 100 =
      [{ time := 105/4, distance := 25, laps := 1, hundreds := 1/4 },
       { time := 105/2, distance := 50, laps := 2, hundreds := 1/2 },
       { time := 315/4, distance := 75, laps := 3, hundreds := 3/4 }] := by
  have h := (c6_announcement_schedule 25 105 25 100 (by norm_num) (by norm_num) (by norm_num)).1
  have hsteps : annSteps ((105 : ℚ) / 100) 25 100 25 = 3 := by
    rw [annSteps,
      show ⌈((100 : ℚ) - 25 * (105 / 100)) / (25 * (105 / 100))⌉ = 3 from
        Int.ceil_eq_iff.2 ⟨by norm_num, by norm_num⟩]
    rfl
  rw [h, hsteps]
  apply List.ext_getElem?
  intro i
  obtain _ | _ | _ | i := i
  all_goals simp [annEntry]
  all_goals norm_num

/-- C9, counterexample.  The claim sizes the silent buffer as
`floor(duration * sample_rate)` at the engine's configured rate; the
code calls pydub `AudioSegment.silent` without a frame rate, which
allocates at pydub's default 11025 frames/second: one second of silence
under a configured rate of 44100 yields 11025 samples, not 44100. -/
theorem c9_counterexample :
    (allocate_silence 44100 1).length = 11025 ∧ (⌊(1 : ℚ) * 44100⌋ : ℤ) ≠ 11025 := by
  constructor
  · rw [allocate_silence, silentSegment,
      pyIntQ_eq _ 11025 (by norm_num) (by norm_num) (by norm_num), List.length_replicate]
    rfl
  · rw [show ⌊(1 : ℚ) * 44100⌋ = 44100 from Int.floor_eq_iff.2 ⟨by norm_num, by norm_num⟩]
    omega

/-- C9, amended.  For `0 ≤ d`, the allocated silence has exactly
`floor(11025 * d)` samples -- pydub's default 11025 frames/second, not
the engine's configured `sample_rate`, which the allocation ignores --
and every sample is zero. -/
theorem c9_amended :
    ∀ d : ℚ, 0 ≤ d → ∀ sr : ℚ,
      (allocate_silence sr d).length = (⌊11025 * d⌋).toNat ∧
      (∀ s ∈ allocate_silence sr d, s = 0) ∧
      allocate_silence sr d = allocate_silence 44100 d := by
  intro d hd sr
  refine ⟨?_, ?_, rfl⟩
  · rw [allocate_silence, silentSegment, List.length_replicate,
      show (11025 * (d * 1000) / 1000 : ℚ) = 11025 * d by ring,
      pyIntQ_of_nonneg _ (by positivity)]
  · intro s hs
    rw [allocate_silence, silentSegment] at hs
    exact (List.eq_of_mem_replicate hs)

/-- C9, witness for the amended theorem at `d = 2`. -/
theorem c9_witness :
    (allocate_silence 44100 2).length = (⌊(11025 : ℚ) * 2⌋).toNat :=
  (c9_amended 2 (by norm_num) 44100).1

/-- C3, counterexample.  The claim requires `InvalidParameter` whenever
`duration_seconds < 0` (among others); the code performs no validation:
`generate_metronome` with duration `-1` s (and an ordinary 50 ms click)
allocates an empty silent track, runs zero loop iterations, and returns
it successfully. -/
theorem c3_counterexample :
    generate_metronome 44100 60 4 (-1) 800 1200 (1 / 20) (1 / 2) true ≠
      Except.error AudioError.invalidParameter ∧
    generate_metronome 44100 60 4 (-1) 800 1200 (1 / 20) (1 / 2) true = Except.ok [] := by
  have heq : generate_metronome 44100 60 4 (-1) 800 1200 (1 / 20) (1 / 2) true
      = Except.ok [] := by
    rw [generate_metronome,
      if_neg (not_lt.2 (toneFrameCountZ_nonneg _ (pyIntQ_nonneg _ (by norm_num)))),
      metronomeBeats_neg_duration 60 4 (-1) true (by norm_num) (by norm_num)]
    simp only [List.foldl_nil]
    rw [silentSegment,
      pyIntQ_eq_neg ((11025 : ℚ) * (-1 * 1000) / 1000) (-11025) (by norm_num) (by norm_num)
        (by norm_num)]
    rfl
  exact ⟨by rw [heq]; exact fun h => Except.noConfusion h, heq⟩

/-- C3, amended.  There is no parameter validation and no
`InvalidParameter` error anywhere in the two operations.
`generate_click` returns its buffer for every nonnegative duration and
any frequency or amplitude (in particular an amplitude of 1.5, outside
the claim's `[0, 1]`, yields an ordinary 2204-frame click); a negative
duration surfaces as pydub's `ValueError` -- a raw Python error from
`itertools.islice`, not `InvalidParameter`.  `generate_metronome` with a
negative duration returns an empty buffer successfully for any measure
length, accent flag and click parameters with a nonnegative click
duration. -/
theorem c3_amended :
    (∀ (sr f d v : ℚ), 0 ≤ d →
      generate_click sr f d v = Except.ok (generateClickSeg f d v)) ∧
    (∀ (sr f v : ℚ), generate_click sr f (-1) v = Except.error AudioError.valueError) ∧
    ((generateClickSeg 800 (1 / 20) (3 / 2)).length = 2204) ∧
    (∀ (sr : ℚ) (bm : ℕ) (af : Bool) (cf afr cd vol : ℚ), 0 ≤ cd →
      generate_metronome sr 60 bm (-1) cf afr cd vol af = Except.ok []) := by
  refine ⟨?_, ?_, generateClickSeg_length_50ms 800 (3 / 2), ?_⟩
  · intro sr f d v hd
    rw [generate_click,
      if_neg (not_lt.2 (toneFrameCountZ_nonneg _
        (pyIntQ_nonneg _ (mul_nonneg hd (by norm_num)))))]
  · intro sr f v
    have hms : pyIntQ ((-1 : ℚ) * 1000) = -1000 :=
      pyIntQ_eq_neg _ _ (by norm_num) (by norm_num) (by norm_num)
    have htz : toneFrameCountZ (-1000) = -44100 := by
      rw [toneFrameCountZ]
      exact pyIntQ_eq_neg _ _ (by push_cast; norm_num) (by push_cast; norm_num)
        (by push_cast; norm_num)
    rw [generate_click, hms, if_pos (by rw [htz]; norm_num)]
  · intro sr bm af cf afr cd vol hcd
    rw [generate_metronome,
      if_neg (not_lt.2 (toneFrameCountZ_nonneg _
        (pyIntQ_nonneg _ (mul_nonneg hcd (by norm_num))))),
      metronomeBeats_neg_duration 60 bm (-1) af (by norm_num) (by norm_num)]
    simp only [List.foldl_nil]
    rw [silentSegment,
      pyIntQ_eq_neg ((11025 : ℚ) * (-1 * 1000) / 1000) (-11025) (by norm_num) (by norm_num)
        (by norm_num)]
    rfl

/-- C3, witness for the amended theorem: a metronome request with a
negative total duration and an ordinary 100 ms click succeeds with an
empty buffer (no `InvalidParameter`). -/
theorem c3_witness :
    generate_metronome 48000 60 3 (-1) 900 1100 (1 / 10) (3 / 10) false = Except.ok [] :=
  c3_amended.2.2.2 48000 3 false 900 1100 (1 / 10) (3 / 10) (by norm_num)

/-- C10, confirmed.  Neither `generate_click` nor `generate_metronome`
reads the generator's stored `sample_rate`: two generators constructed
with different rates produce identical buffers for identical calls. -/
theorem c10_sample_rate_unread :
    ∀ (sr1 sr2 f d v bpm : ℚ) (bm : ℕ) (dur cf afr cd vol : ℚ) (af : Bool),
      generate_click sr1 f d v = generate_click sr2 f d v ∧
      generate_metronome sr1 bpm bm dur cf afr cd vol af
        = generate_metronome sr2 bpm bm dur cf afr cd vol af :=
  fun _ _ _ _ _ _ _ _ _ _ _ _ _ => ⟨rfl, rfl⟩

/-- C8, confirmed.  An announcement whose effective text has no entry in
the voice map leaves the fold's accumulator untouched, so the mixer's
result is identical to the result for the same input with that
announcement removed; no error is raised (the operation is total). -/
theorem c8_missing_voice_skipped :
    ∀ (base : List ℤ) (vmap : List (String × List ℤ)) (l1 l2 : List MixAnn)
      (a : MixAnn) (vol : ℚ),
      vmap.lookup (mixText a) = none →
      mix_audio_with_voice base vmap (l1 ++ a :: l2) vol
        = mix_audio_with_voice base vmap (l1 ++ l2) vol := by
  intro base vmap l1 l2 a vol h
  rw [mix_audio_with_voice, mix_audio_with_voice, List.foldl_append, List.foldl_append,
    List.foldl_cons, h]

/-- C8, witness: a two-sample base, a voice map holding only "a", and
one announcement whose text "b" is missing: the buffer is returned
unchanged. -/
theorem c8_witness :
    mix_audio_with_voice [0, 0] [("a", [5])] [{ time := 0, text := some "b", distance := 0 }]
      (8 / 10) = [0, 0] := by
  have h := c8_missing_voice_skipped [0, 0] [("a", [5])] [] []
    { time := 0, text := some "b", distance := 0 } (8 / 10) (by rfl)
  simp only [List.nil_append] at h
  rw [h]
  rfl

/-- C5, confirmed.  Every sample of a synthesized click is within the
signed 16-bit range, hence within the normalized amplitude range
`[-1, 1]`, for every frequency, duration and volume (including volumes
above 1: `audioop` saturates instead of wrapping); every buffer
returned by `generate_metronome` built over the all-zero silent base
satisfies the same bound; and `mix_audio_with_voice` preserves it for
arbitrary voice clips and any `voice_volume` scale. -/
theorem c5_amplitude_clamped :
    (∀ (f d v : ℚ), ∀ s ∈ generateClickSeg f d v,
      -1 ≤ (s : ℚ) / 32768 ∧ (s : ℚ) / 32768 ≤ 1) ∧
    (∀ (sr bpm : ℚ) (bm : ℕ) (dur cf afr cd vol : ℚ) (af : Bool) (out : List ℤ),
      generate_metronome sr bpm bm dur cf afr cd vol af = Except.ok out →
      ∀ s ∈ out, -1 ≤ (s : ℚ) / 32768 ∧ (s : ℚ) / 32768 ≤ 1) ∧
    (∀ (base : List ℤ) (vmap : List (String × List ℤ)) (anns : List MixAnn) (vol : ℚ),
      (∀ t ∈ base, -32768 ≤ t ∧ t ≤ 32767) →
      ∀ s ∈ mix_audio_with_voice base vmap anns vol,
        -1 ≤ (s : ℚ) / 32768 ∧ (s : ℚ) / 32768 ≤ 1) := by
  refine ⟨?_, ?_, ?_⟩
  · intro f d v s hs
    rw [generateClickSeg] at hs
    rcases List.mem_map.1 hs with ⟨t, _, rfl⟩
    exact normalized_of_inRange _ (mulSample_bounds _ t).1 (mulSample_bounds _ t).2
  · intro sr bpm bm dur cf afr cd vol af out hout s hs
    rw [generate_metronome] at hout
    by_cases hguard : toneFrameCountZ (pyIntQ (cd * 1000)) < 0
    · rw [if_pos hguard] at hout
      exact absurd hout (fun h => Except.noConfusion h)
    rw [if_neg hguard] at hout
    rcases Except.ok.inj hout with rfl
    have hbase : ∀ t ∈ silentSegment (dur * 1000), -32768 ≤ t ∧ t ≤ 32767 := by
      intro t ht
      rw [silentSegment] at ht
      rw [List.eq_of_mem_replicate ht]
      omega
    have h := metronome_foldl_preserves_range (metronomeBeats bpm bm dur af)
      (generateClickSeg cf cd vol) (generateClickSeg afr cd vol)
      (silentSegment (dur * 1000)) hbase s hs
    exact normalized_of_inRange _ h.1 h.2
  · intro base vmap anns vol hb s hs
    have h := mix_preserves_range anns vmap vol base hb s hs
    exact normalized_of_inRange _ h.1 h.2

/-- C5, witness: the mixer applied to a one-sample base with no
announcements returns that sample, which is inside the normalized
range. -/
theorem c5_witness :
    -1 ≤ ((5 : ℤ) : ℚ) / 32768 ∧ ((5 : ℤ) : ℚ) / 32768 ≤ 1 :=
  c5_amplitude_clamped.2.2 [5] [] [] 1
    (by intro t ht; rw [List.mem_singleton] at ht; subst ht; omega)
    5 (by rw [mix_audio_with_voice, List.foldl_nil]; exact List.mem_singleton.2 rfl)

/-- C4, counterexample.  The claim says a click shorter than twice the
5 ms fade window is emitted as the raw (unfaded) tone.  A 6 ms click at
11025 Hz and full volume has sample 1 equal to 148 -- the fade-in ramp
attenuates the 32767 crest of the raw tone by a factor of about 0.0045
-- so the output is not the raw tone. -/
theorem c4_counterexample :
    (generateClickSeg 11025 (6 / 1000) 1).get? 1 = some 148 ∧
    (rawClickSeg 11025 (6 / 1000) 1).get? 1 = some 32767 ∧
    generateClickSeg 11025 (6 / 1000) 1 ≠ rawClickSeg 11025 (6 / 1000) 1 := by
  refine ⟨generateClickSeg_6ms_get1, rawClickSeg_6ms_get1, fun h => ?_⟩
  have h1 := generateClickSeg_6ms_get1
  rw [h, rawClickSeg_6ms_get1] at h1
  simp at h1

/-- C4, amended.  The 5 ms linear fade-in and fade-out are applied
unconditionally; there is no clamping of the window to half the
waveform length and no skip for short waveforms.  A 6 ms request (below
twice the window) still succeeds -- yielding the full 264-frame buffer,
so synthesis does not fail -- and its sample 1 carries the linear
fade-in ramp factor composed with the volume gain, not the raw tone
value. -/
theorem c4_amended :
    ∀ f v : ℚ,
      (generateClickSeg f (6 / 1000) v).length = 264 ∧
      (generateClickSeg f (6 / 1000) v).get? 1 =
        some (mulSample (dbToFloat (-(100 * (1 - v))))
          (mulSample (fadeInFactor 1) ((sineSegment f 6).getD 1 0))) :=
  fun f v => ⟨generateClickSeg_6ms_length f v, generateClickSeg_6ms_get1_symbolic f v⟩
